import Mathlib

/-!
Verification of the daemon supervision and recovery orchestration subsystem of
the tWallet terminal wallet (Go sources under `flnd/` and `pages/wallet/`).

Shallow embedding: the relevant Go functions are translated into executable
Lean definitions; durations are modelled in whole seconds, channels as bounded
FIFO buffers, and the gRPC endpoints as oracle functions supplied as
parameters.
-/

namespace TWallet

/-! ### ServiceSupervisor retry backoff (`Service.run`, `flnd/service.go`)

`Service.run` keeps `retryDelay` (initially `time.Second`) across loop
iterations.  On every failed start it publishes `Down`, sleeps `retryDelay`,
and then doubles the delay, capping at `maxRetryDelay = 30 * time.Second`:

    if retryDelay < maxRetryDelay {
        retryDelay = retryDelay * 2
        if retryDelay > maxRetryDelay { retryDelay = maxRetryDelay }
    }

After a successful `d.start()` it executes `retryDelay = time.Second`.
Delays are modelled in seconds. -/

/-- The doubling-with-ceiling update applied to `retryDelay` after the retry
sleep of a failed iteration of `Service.run`. -/
def backoffNext (d : Nat) : Nat :=
  if d < 30 then
    let d2 := d * 2
    if d2 > 30 then 30 else d2
  else d

/-- One simulated run of the `Service.run` loop over a list of start outcomes
(`false` = the start attempt failed, `true` = the daemon started).  Returns
the list of retry delays slept, in order.  A failed attempt sleeps the current
delay and then doubles it (capped); a successful attempt sleeps no retry delay
and resets the delay to 1 s for the next failure. -/
def runDelays (d : Nat) : List Bool → List Nat
  | [] => []
  | false :: rest => d :: runDelays (backoffNext d) rest
  | true :: rest => runDelays 1 rest

theorem backoffNext_min_pow (k : Nat) :
    backoffNext (min (2 ^ k) 30) = min (2 ^ (k + 1)) 30 := by
  rcases Nat.lt_or_ge k 5 with hk | hk
  · interval_cases k <;> decide
  · have h1 : (32 : Nat) ≤ 2 ^ k := by
      calc (32 : Nat) = 2 ^ 5 := by norm_num
      _ ≤ 2 ^ k := Nat.pow_le_pow_right (by norm_num) hk
    have h2 : (32 : Nat) ≤ 2 ^ (k + 1) := le_trans h1 (Nat.pow_le_pow_right (by norm_num) (Nat.le_succ k))
    have e1 : min (2 ^ k) 30 = 30 := by omega
    have e2 : min (2 ^ (k + 1)) 30 = 30 := by omega
    rw [e1, e2]
    simp [backoffNext]

/-! ### Subscriber fan-out (`Service.Subscribe` / `Unsubscribe` /
`notifySubscribers` / `unsubscribeAll` / `Stop`, `flnd/service.go`)

The `Service` owns `subs []chan *Update` guarded by `subMu`, plus `lastEvent`
(initialised to `&Update{State: StatusInit}` in `New`).  `Subscribe` makes a
channel with buffer 5, appends it to `subs` and primes it with `lastEvent`;
`Unsubscribe` removes the first matching channel from `subs` without closing
it; `notifySubscribers` stores `lastEvent` and performs a non-blocking send to
every channel in `subs` (a full buffer drops the update for that channel);
`unsubscribeAll` offers one final `Down` update to each channel (bounded by a
5-second `time.After`) and closes it, then empties `subs`.  `Stop` runs under
`stopOnce`.

Channels are modelled as bounded FIFO buffers of capacity 5 identified by
numeric ids; there is no concurrent reader, so a non-blocking send succeeds
exactly when the buffer holds fewer than 5 elements. -/

/-- The `Status` enum of `flnd/service.go`. -/
inductive Status where
  | init | none | locked | unlocked | syncing | ready
  | noWallet | down | tx | block | scanning | quit
deriving DecidableEq, Repr

/-- The `Update` event value (`flnd/service.go`).  The `Err` and
`Transaction` pointers are abstracted to identity-preserving tags. -/
structure Update where
  state : Status
  errTag : Option Nat
  txTag : Option Nat
  blockHeight : Nat
  syncedHeight : Nat
  blockHash : String
deriving DecidableEq, Repr

/-- `&Update{State: StatusInit}` stored by `flnd.New` (other fields zero). -/
def initUpdate : Update :=
  { state := .init, errTag := none, txTag := none
    blockHeight := 0, syncedHeight := 0, blockHash := "" }

/-- The final `&Update{State: StatusDown}` sent by `unsubscribeAll`. -/
def downUpdate : Update :=
  { state := .down, errTag := none, txTag := none
    blockHeight := 0, syncedHeight := 0, blockHash := "" }

/-- A subscriber channel: a FIFO buffer (capacity 5) and a closed flag. -/
structure Chan where
  buf : List Update
  closed : Bool
deriving DecidableEq, Repr

/-- `select t case ch <- u: default:` on a buffered channel with no reader:
the value is enqueued when the buffer has room, else dropped. -/
def trySend (c : Chan) (u : Update) : Chan :=
  if c.buf.length < 5 then { c with buf := c.buf ++ [u] } else c

/-- `select t case ch <- u: case <-time.After(5s):` followed by `close(ch)` in
`unsubscribeAll`: with no reader, the send succeeds only when the buffer has
room; after the 5-second bound the update is dropped; the channel is closed
either way. -/
def offerDownAndClose (c : Chan) : Chan :=
  if c.buf.length < 5 then { buf := c.buf ++ [downUpdate], closed := true }
  else { c with closed := true }

/-- Service subscriber-side state: the fan-out set `subs` (channel ids in
order), the channels themselves, the id for the next `make(chan)`, the last
stored event, and the `stopOnce` flag. -/
structure SvcState where
  subs : List Nat
  chans : Nat → Chan
  nextId : Nat
  lastEvent : Update
  stopped : Bool

/-- State of a freshly constructed `Service` (`flnd.New`). -/
def svcInit : SvcState :=
  { subs := [], chans := fun _ => { buf := [], closed := false }
    nextId := 0, lastEvent := initUpdate, stopped := false }

/-- Apply `g` to the channel of each id of `ids` in order (one application per
occurrence), as the `for _, ch := range s.subs` loops do. -/
def foldApply (g : Chan → Chan) (ids : List Nat) (f : Nat → Chan) : Nat → Chan :=
  ids.foldl (fun f i => fun j => if j = i then g (f j) else f j) f

/-- `Service.Subscribe`: create a channel with buffer 5, append it to `subs`,
and send `lastEvent` into it (the fresh buffer always has room). -/
def svcSubscribe (s : SvcState) : SvcState :=
  { s with
    subs := s.subs ++ [s.nextId]
    chans := fun i => if i = s.nextId then { buf := [s.lastEvent], closed := false } else s.chans i
    nextId := s.nextId + 1 }

/-- The removal loop of `Service.Unsubscribe`: drop the first occurrence. -/
def removeFirst : List Nat → Nat → List Nat
  | [], _ => []
  | x :: xs, t => if x = t then xs else x :: removeFirst xs t

/-- `Service.Unsubscribe`: remove the channel from the fan-out set; the
channel itself is not touched (in particular not closed). -/
def svcUnsubscribe (s : SvcState) (id : Nat) : SvcState :=
  { s with subs := removeFirst s.subs id }

/-- `Service.notifySubscribers`: store `lastEvent` and perform a non-blocking
send to every channel in `subs`. -/
def svcPublish (s : SvcState) (u : Update) : SvcState :=
  { s with lastEvent := u, chans := foldApply (fun c => trySend c u) s.subs s.chans }

/-- `Service.unsubscribeAll`: if `subs` is empty do nothing; otherwise offer
each channel one final `Down` update (bounded wait), close it, and empty the
fan-out set. -/
def svcUnsubscribeAll (s : SvcState) : SvcState :=
  if s.subs = [] then s
  else { s with chans := foldApply offerDownAndClose s.subs s.chans, subs := [] }

/-- `Service.Stop` restricted to its subscriber-visible effect: under
`stopOnce`, run `unsubscribeAll` (daemon teardown and context cancellation do
not touch subscriber channels). -/
def svcStop (s : SvcState) : SvcState :=
  if s.stopped then s else { svcUnsubscribeAll s with stopped := true }

/-- Operations a client of the `Service` pub/sub API can interleave. -/
inductive SvcOp where
  | subscribe
  | publish (u : Update)
  | unsubscribe (id : Nat)

/-- Apply one pub/sub operation. -/
def svcApply (s : SvcState) : SvcOp → SvcState
  | .subscribe => svcSubscribe s
  | .publish u => svcPublish s u
  | .unsubscribe id => svcUnsubscribe s id

/-- Run a sequence of pub/sub operations. -/
def svcRun (s : SvcState) : List SvcOp → SvcState
  | [] => s
  | op :: ops => svcRun (svcApply s op) ops

/-- The last update published by a sequence of operations, or the initial
`Init` update when it publishes none. -/
def lastPublished (ops : List SvcOp) : Update :=
  ops.foldl (fun acc op => match op with | .publish u => u | _ => acc) initUpdate

/-! ### Auto-unlock after restart (`autoUnlockAfterRescan`,
`pages/wallet/rescan.go`)

The loop keeps `attempts` (capped by `maxAttempts = 30`) and an
`awaitingConfirmation` flag, and selects over the context, the subscription
channel and a timer (initially `time.NewTimer(0)`, so it fires immediately).
On a timer fire while awaiting confirmation, the flag is cleared and the
timer re-armed at 0; otherwise, when `attempts >= maxAttempts` the loop
fails terminally, else `attempts++` and `Unlock(pass)` is called.  The
unlock call's outcome is classified exactly as the Go code does. -/

/-- Outcome of one `w.load.Wallet.Unlock(pass)` call, classified by the
branches of `autoUnlockAfterRescan`: `accepted` is `err == nil`;
`alreadyUnlocked` / `invalidPassphrase` are the "already unlocked" /
"invalid passphrase" message matches (gRPC-status or plain error alike);
`retryableCode` is a gRPC status with code Unavailable, Canceled,
DeadlineExceeded, FailedPrecondition or Unknown; `otherStatusCode` is any
other gRPC status code (returned to the caller); `plainError` is a
non-status error with no message match (retried after the delay). -/
inductive UnlockResult where
  | accepted
  | alreadyUnlocked
  | invalidPassphrase
  | retryableCode
  | otherStatusCode
  | plainError
deriving DecidableEq, Repr

/-- One input consumed by the `select` of the auto-unlock loop: a received
subscription update, the subscription channel closing, or the timer firing. -/
inductive AUIn where
  | upd (st : Status)
  | subClosed
  | timerFire
deriving DecidableEq, Repr

/-- Loop state of `autoUnlockAfterRescan`: the attempt counter, the
`awaitingConfirmation` flag, and the duration (in seconds) the timer was last
armed with (0 = fire immediately). -/
structure AUState where
  attempts : Nat
  awaiting : Bool
  timer : Nat
deriving DecidableEq, Repr

/-- Terminal outcome of the auto-unlock loop.  `ok` is a `nil` return;
`invalidPass` is the sentinel `errInvalidPassphrase`; `maxAttempts` is the
"wallet did not unlock after multiple attempts" error; `otherErr` is an
unlock error returned as-is; `subsClosed` is the "subscription closed"
error; `scriptEnd` marks exhaustion of the scripted unlock outcomes (a model
artifact, unreachable in the scenarios proved below). -/
inductive AUOut where
  | ok
  | invalidPass
  | maxAttempts
  | otherErr
  | subsClosed
  | scriptEnd
deriving DecidableEq, Repr

/-- `maxAttempts = 30` in `autoUnlockAfterRescan`. -/
def auMaxAttempts : Nat := 30

/-- `retryDelay = 5 * time.Second` in `autoUnlockAfterRescan`, in seconds. -/
def auRetryDelay : Nat := 5

/-- State on entry to the loop: no attempts, not awaiting confirmation, and
the timer armed at 0 so it fires immediately. -/
def auInit : AUState := { attempts := 0, awaiting := false, timer := 0 }

/-- One `select` iteration of `autoUnlockAfterRescan`.  `script` is the
sequence of outcomes of successive `Unlock` calls; each actual call consumes
its head. -/
def auStep (s : AUState) (script : List UnlockResult) :
    AUIn → AUOut ⊕ (AUState × List UnlockResult)
  | .upd st =>
    match st with
    | .unlocked => .inl .ok
    | .ready => .inl .ok
    | .syncing => .inl .ok
    | .locked => .inr ({ s with awaiting := false, timer := 0 }, script)
    | .down => .inr ({ s with awaiting := false, timer := auRetryDelay }, script)
    | .none => .inr ({ s with awaiting := false, timer := auRetryDelay }, script)
    | _ => .inr (s, script)
  | .subClosed => .inl .subsClosed
  | .timerFire =>
    if s.awaiting then
      .inr ({ s with awaiting := false, timer := 0 }, script)
    else if s.attempts ≥ auMaxAttempts then .inl .maxAttempts
    else
      match script with
      | [] => .inl .scriptEnd
      | r :: rest =>
        match r with
        | .accepted =>
          .inr ({ attempts := s.attempts + 1, awaiting := true, timer := auRetryDelay }, rest)
        | .alreadyUnlocked => .inl .ok
        | .invalidPassphrase => .inl .invalidPass
        | .retryableCode =>
          .inr ({ attempts := s.attempts + 1, awaiting := false, timer := auRetryDelay }, rest)
        | .otherStatusCode => .inl .otherErr
        | .plainError =>
          .inr ({ attempts := s.attempts + 1, awaiting := false, timer := auRetryDelay }, rest)

/-- Run the auto-unlock loop over a list of scheduled inputs; `inl` is a
terminal return, `inr` the state left when the schedule runs out. -/
def auRun (s : AUState) (script : List UnlockResult) :
    List AUIn → AUOut ⊕ (AUState × List UnlockResult)
  | [] => .inr (s, script)
  | i :: is =>
    match auStep s script i with
    | .inl o => .inl o
    | .inr (s2, sc2) => auRun s2 sc2 is

/-! ### Transaction cache (`Client.FetchTransactionsWithOptions`,
`flnd/client.go`)

The client keeps `cache *txCache` (`Txs`, `LastIndex`, `NextOffset`,
`LastUpdated`, `Dirty`) under `c.mu`, plus `txFetchLimit`.  The fast path
(cache not dirty, no `ForceRescan`, within the 5-minute TTL) probes the
transaction source for one row past `LastIndex`; with no new transactions it
serves the cached list (truncated to the display limit when positive).  The
slow path pages in chunks of 1000 from the last known index, merges with the
cached entries, stable-sorts by `(TimeStamp desc, BlockHeight desc)` and
de-duplicates by `TxHash` keeping the first post-sort occurrence.  The RPC
source is an oracle `src maxTransactions indexOffset`; time is in Unix
seconds; the unbounded Go paging loop carries explicit fuel. -/

/-- The fields of `lnrpc.Transaction` the cache logic reads. -/
structure Tx where
  txHash : String
  timeStamp : Int
  blockHeight : Int
deriving DecidableEq, Repr

/-- The `less` closure passed to `sort.SliceStable`: newest-first by
`TimeStamp`, then by `BlockHeight`, `false` on full ties. -/
def txLess (a b : Tx) : Bool :=
  if a.timeStamp ≠ b.timeStamp then decide (b.timeStamp < a.timeStamp)
  else if a.blockHeight ≠ b.blockHeight then decide (b.blockHeight < a.blockHeight)
  else false

/-- The non-strict counterpart of `txLess`: `a` may come before `b`. -/
def txLe (a b : Tx) : Bool := ! txLess b a

/-- `sort.SliceStable(allTxs, less)`: the stable sort w.r.t. `txLe`
(`List.mergeSort` is stable, so it computes the same list). -/
def sortTxs (l : List Tx) : List Tx := l.mergeSort txLe

/-- The de-duplication loop: a `seen` set of hashes, keeping the first
occurrence of each `TxHash` in order. -/
def dedupByHash (seen : List String) : List Tx → List Tx
  | [] => []
  | t :: ts =>
    if t.txHash ∈ seen then dedupByHash seen ts
    else t :: dedupByHash (t.txHash :: seen) ts

/-- The merge step of the slow path: stable sort then de-duplicate (for lists
of length ≤ 1 the Go code skips the dedup loop, which is the identity there
anyway). -/
def mergeSortDedup (l : List Tx) : List Tx := dedupByHash [] (sortTxs l)

/-- Key equality for the sort order: transactions tied on both `TimeStamp`
and `BlockHeight` (the ties the stable sort must not reorder). -/
def sameKey (t h : Int) (x : Tx) : Bool :=
  decide (x.timeStamp = t) && decide (x.blockHeight = h)

/-- The `txCache` struct; `lastUpdated` is a Unix-seconds timestamp. -/
structure TxCache where
  txs : List Tx
  lastIndex : Nat
  nextOffset : Nat
  lastUpdated : Nat
  dirty : Bool
deriving DecidableEq, Repr

/-- `FetchTransactionsOptions`. -/
structure FetchOptions where
  forceRescan : Bool
  ignoreLimit : Bool
deriving DecidableEq, Repr

/-- Outcome of one `GetTransactions` RPC: a page with its server-side
`LastIndex`, the `ErrRPCStarting` condition, a deadline expiry, or another
error. -/
inductive RpcPage where
  | ok (txs : List Tx) (lastIndex : Nat)
  | errStarting
  | errDeadline
  | errOther
deriving DecidableEq, Repr

/-- Errors surfaced by `FetchTransactionsWithOptions` (wrapping collapsed to
tags); `outOfFuel` is a model artifact of the bounded paging loop. -/
inductive FetchErr where
  | daemonNotRunning
  | backendStarting
  | rpcTimeout
  | rpcOther
  | outOfFuel
deriving DecidableEq, Repr

/-- Result of one call: the returned list, the returned error (both can be
set: stale cache is served together with the backend-starting error), the
cache left behind, and how many slow-path page RPCs were made. -/
structure FetchResult where
  txs : List Tx
  err : Option FetchErr
  cache : TxCache
  pageCalls : Nat
deriving Repr

/-- `^uint32(0)`. -/
def uint32Max : Nat := 2 ^ 32 - 1

/-- `transactionsCacheTTL = 5 * time.Minute`, in seconds. -/
def cacheTTL : Nat := 300

/-- `if limit > 0 && len(xs) > limit { xs = xs[:limit] }`. -/
def truncateLimit (limit : Nat) (l : List Tx) : List Tx :=
  if 0 < limit ∧ limit < l.length then l.take limit else l

/-- Result of the slow-path paging loop. -/
inductive PageOut where
  | pages (collected : List Tx) (lastIdx : Nat) (calls : Nat)
  | failStarting (calls : Nat)
  | failTimeout (calls : Nat)
  | failOther (calls : Nat)
  | noFuel
deriving DecidableEq, Repr

/-- The slow-path `for` loop: page 1000 rows at a time from `cursor`
(clamped to uint32), accumulate until an empty or short page, advancing the
cursor to the server-reported `LastIndex + 1` (breaking when it would
overflow uint32). -/
def pageLoop (src : Nat → Nat → RpcPage) : Nat → Nat → List Tx → Nat → PageOut
  | 0, _, _, _ => .noFuel
  | fuel + 1, cursor, acc, calls =>
    match src 1000 (cursor % 2 ^ 32) with
    | .errStarting => .failStarting (calls + 1)
    | .errDeadline => .failTimeout (calls + 1)
    | .errOther => .failOther (calls + 1)
    | .ok txs pageLast =>
      if txs = [] then .pages acc pageLast (calls + 1)
      else if pageLast + 1 > uint32Max then .pages (acc ++ txs) pageLast (calls + 1)
      else if txs.length < 1000 then .pages (acc ++ txs) pageLast (calls + 1)
      else pageLoop src fuel (pageLast + 1) (acc ++ txs) (calls + 1)

/-- The slow path of `FetchTransactionsWithOptions`: snapshot the cursor and
the cached entries (unless `ForceRescan`), page through the source, then
merge, sort, de-duplicate and persist the fresh cache.  On `ErrRPCStarting`
the stale cache (when any) is served together with the wrapped error; a
deadline expiry is reported as the distinct timeout error. -/
def slowFetch (src : Nat → Nat → RpcPage) (opts : FetchOptions) (limit : Nat)
    (c : TxCache) (now fuel : Nat) : FetchResult :=
  let cursor := if opts.forceRescan then 0 else c.lastIndex
  let existing := if opts.forceRescan then [] else c.txs
  match pageLoop src fuel cursor [] 0 with
  | .noFuel => ⟨[], some .outOfFuel, c, fuel⟩
  | .failStarting calls =>
    if c.txs ≠ [] then ⟨truncateLimit limit c.txs, some .backendStarting, c, calls⟩
    else ⟨[], some .backendStarting, c, calls⟩
  | .failTimeout calls => ⟨[], some .rpcTimeout, c, calls⟩
  | .failOther calls => ⟨[], some .rpcOther, c, calls⟩
  | .pages collected lastIdx calls =>
    let merged := mergeSortDedup (existing ++ collected)
    let c2 : TxCache :=
      { txs := merged, lastIndex := lastIdx
        nextOffset := if lastIdx + 1 > uint32Max then uint32Max else lastIdx + 1
        lastUpdated := now, dirty := false }
    ⟨truncateLimit limit merged, none, c2, calls⟩

/-- `Client.FetchTransactionsWithOptions`: the `closing` guard, then the
fast path — not dirty, no `ForceRescan`, within the TTL, and a 1-row probe
past `LastIndex` coming back clean serves the cached list (refreshing the
TTL stamp) without paging; every other probe outcome falls through to the
slow path (`ErrRPCStarting` with a non-empty cache serves stale data with
the wrapped error instead). -/
def fetchTransactionsWithOptions (src : Nat → Nat → RpcPage) (closing : Bool)
    (opts : FetchOptions) (limitCfg : Nat) (c : TxCache) (now fuel : Nat) :
    FetchResult :=
  if closing then ⟨[], some .daemonNotRunning, c, 0⟩
  else
    let limit := if opts.ignoreLimit then 0 else limitCfg
    if c.dirty = false ∧ opts.forceRescan = false ∧ now - c.lastUpdated ≤ cacheTTL then
      match src 1 ((c.lastIndex + 1) % 2 ^ 32) with
      | .errStarting =>
        if c.txs ≠ [] then ⟨truncateLimit limit c.txs, some .backendStarting, c, 0⟩
        else slowFetch src opts limit c now fuel
      | .ok [] _ =>
        ⟨truncateLimit limit c.txs, none, { c with lastUpdated := now }, 0⟩
      | _ => slowFetch src opts limit c now fuel
    else slowFetch src opts limit c now fuel

/-! ### Rescan progress best-status tracking (`newRescanProgressView`,
`pages/wallet/rescan.go`)

The `updateStatus` closure stores every non-nil snapshot as `lastStatus` and
replaces `bestStatus` only when `copyStatus.UTXOCount > 0 && (bestStatus ==
nil || copyStatus.UTXOCount >= bestStatus.UTXOCount)`; `getLastStatus`
returns `bestStatus` when set, else `lastStatus`.  `UTXOCount` is a Go `int`
(modelled as `Int`); in `Load.GetRecoveryStatus` it is always `len(utxos)`,
hence non-negative. -/

/-- A `load.RecoveryStatus` snapshot: the `Info` pointer reduced to an
identity tag, plus `UTXOCount`. -/
structure RecoveryStatus where
  infoTag : Nat
  utxoCount : Int
deriving DecidableEq, Repr

/-- The captured `lastStatus` / `bestStatus` pair of the progress view. -/
structure ProgressTrack where
  lastStatus : Option RecoveryStatus
  bestStatus : Option RecoveryStatus
deriving DecidableEq, Repr

/-- Both snapshots start `nil`. -/
def progressTrackInit : ProgressTrack := { lastStatus := none, bestStatus := none }

/-- The replacement guard of `updateStatus`. -/
def shouldReplaceBest (best : Option RecoveryStatus) (s : RecoveryStatus) : Bool :=
  decide (0 < s.utxoCount) &&
    (match best with
     | Option.none => true
     | Option.some b => decide (b.utxoCount ≤ s.utxoCount))

/-- The `updateStatus` closure: ignore nil, record `lastStatus`, and replace
`bestStatus` only under the guard. -/
def updateStatus (m : ProgressTrack) (st : Option RecoveryStatus) : ProgressTrack :=
  match st with
  | Option.none => m
  | Option.some s =>
    { lastStatus := some s
      bestStatus := if shouldReplaceBest m.bestStatus s then some s else m.bestStatus }

/-- The `getLastStatus` closure: prefer `bestStatus`, else `lastStatus`. -/
def getLastStatus (m : ProgressTrack) : Option RecoveryStatus :=
  match m.bestStatus with
  | Option.some b => some b
  | Option.none => m.lastStatus

/-- Record a whole sequence of (non-nil) snapshots, as the monitor callback
does once per polling interval. -/
def recordStatuses (l : List RecoveryStatus) : ProgressTrack :=
  l.foldl (fun m s => updateStatus m (some s)) progressTrackInit

/-- The count finally reported (`finalizeRescan` reads
`getLastStatus().UTXOCount`). -/
def reportedCount (m : ProgressTrack) : Option Int :=
  (getLastStatus m).map (·.utxoCount)

/-- The largest `UTXOCount` in a list of snapshots (0 for the empty list). -/
def maxUtxoCount (l : List RecoveryStatus) : Int :=
  l.foldr (fun s acc => max s.utxoCount acc) 0

/-- The count held by `bestStatus` (0 when unset). -/
def bestCount (m : ProgressTrack) : Int :=
  match m.bestStatus with
  | Option.some b => b.utxoCount
  | Option.none => 0

/-- Invariant of the tracker: `bestStatus` only ever holds a snapshot with a
positive count. -/
def BestPos (m : ProgressTrack) : Prop :=
  ∀ b, m.bestStatus = some b → 0 < b.utxoCount

/-! ### `daemon.stop` idempotence (`flnd/flnd.go`)

`stop()` takes `d.mu`, returns early when `d.closed` is set, and otherwise
closes the client, closes the RPC connection, cancels the context, requests
shutdown and waits for the shutdown channel.  `d.closed` is set only by
`waitForShutdown()`, never by `stop()` itself.  The effects are modelled as
invocation counters. -/

/-- Observable daemon state: the `closed` guard, the client's `closing`
flag, and how many times `conn.Close()`, `cancel()` and
`interceptor.RequestShutdown()` have been invoked. -/
structure DaemonState where
  closed : Bool
  clientClosing : Bool
  connCloses : Nat
  cancels : Nat
  shutdownRequests : Nat
deriving DecidableEq, Repr

/-- A daemon right after a successful `start()`: nothing closed yet. -/
def daemonFresh : DaemonState :=
  { closed := false, clientClosing := false
    connCloses := 0, cancels := 0, shutdownRequests := 0 }

/-- `daemon.stop()`: no-op when `closed` is set; otherwise close the client,
close the connection, cancel the context and request shutdown (each call
counted), leaving `closed` untouched. -/
def daemonStop (d : DaemonState) : DaemonState :=
  if d.closed then d
  else
    { d with
      clientClosing := true
      connCloses := d.connCloses + 1
      cancels := d.cancels + 1
      shutdownRequests := d.shutdownRequests + 1 }

/-- `daemon.waitForShutdown()`: after the run task exits and the shutdown
channel closes, set `d.closed`. -/
def daemonWaitForShutdown (d : DaemonState) : DaemonState := { d with closed := true }

/-! ### `ReleaseOutputs` empty fast-path (`Service.ReleaseOutputs`,
`Client.ReleaseOutputs`)

Both functions return `nil` for an empty lock list before any guard:
`Service.ReleaseOutputs` before taking `cmux`/checking `s.client`, and
`Client.ReleaseOutputs` before the `closing` check.  The per-lock
`walletKit.ReleaseOutput` RPC is an oracle returning an optional error
tag. -/

/-- An `*OutputLock` slice entry: `nil` pointer, or id bytes plus optional
outpoint pointer (tag). -/
structure OutputLock where
  lockId : List Nat
  outpoint : Option Nat
deriving DecidableEq, Repr

/-- Error surfaced by the release path. -/
inductive ReleaseErr where
  | daemonNotRunning
  | releaseFailed (tag : Nat)
deriving DecidableEq, Repr

/-- The `for _, lock := range locks` loop of `Client.ReleaseOutputs`:
skip nil locks, empty ids and nil outpoints; stop at the first RPC error. -/
def releaseLoop (release : OutputLock → Option Nat) :
    List (Option OutputLock) → Except ReleaseErr Unit
  | [] => .ok ()
  | Option.none :: rest => releaseLoop release rest
  | Option.some lock :: rest =>
    if lock.lockId = [] ∨ lock.outpoint = Option.none then releaseLoop release rest
    else
      match release lock with
      | Option.some tag => .error (.releaseFailed tag)
      | Option.none => releaseLoop release rest

/-- `Client.ReleaseOutputs`: empty list returns `nil` first, then the
`closing` guard, then the loop. -/
def clientReleaseOutputs (closing : Bool) (release : OutputLock → Option Nat)
    (locks : List (Option OutputLock)) : Except ReleaseErr Unit :=
  if locks = [] then .ok ()
  else if closing then .error .daemonNotRunning
  else releaseLoop release locks

/-- `Service.ReleaseOutputs`: empty list returns `nil` before the `cmux`
guard; otherwise a nil client fails with `ErrDaemonNotRunning`, else the
call forwards to the client (given as its `closing` flag and RPC oracle). -/
def serviceReleaseOutputs (client : Option (Bool × (OutputLock → Option Nat)))
    (locks : List (Option OutputLock)) : Except ReleaseErr Unit :=
  if locks = [] then .ok ()
  else
    match client with
    | Option.none => .error .daemonNotRunning
    | Option.some (closing, release) => clientReleaseOutputs closing release locks

theorem backoffNext_le {d : Nat} (hd : d ≤ 30) : backoffNext d ≤ 30 := by
  unfold backoffNext
  split
  · dsimp only
    split <;> omega
  · omega

theorem runDelays_replicate_false (j : Nat) :
    ∀ n, runDelays (min (2 ^ j) 30) (List.replicate n false)
      = (List.range n).map (fun k => min (2 ^ (j + k)) 30)
  | 0 => by simp [runDelays]
  | n + 1 => by
    rw [List.replicate_succ, List.range_succ_eq_map]
    simp only [runDelays, backoffNext_min_pow]
    rw [runDelays_replicate_false (j + 1) n]
    simp only [List.map_cons, List.map_map]
    congr 1
    apply List.map_congr_left
    intro a _
    simp only [Function.comp_apply]
    have h : j + 1 + a = j + (a + 1) := by omega
    rw [h]

theorem runDelays_le_30 (d : Nat) (hd : d ≤ 30) :
    ∀ outs, ∀ x ∈ runDelays d outs, x ≤ 30 := by
  intro outs
  induction outs generalizing d with
  | nil => simp [runDelays]
  | cons o rest ih =>
    cases o with
    | false =>
      intro x hx
      simp only [runDelays, List.mem_cons] at hx
      rcases hx with rfl | hx
      · exact hd
      · exact ih (backoffNext d) (backoffNext_le hd) x hx
    | true =>
      intro x hx
      exact ih 1 (by omega) x hx

/-- C2: in `Service.run`, the retry delays slept before successive attempts
after N consecutive start failures are 1 s, 2 s, 4 s, ... doubling up to the
30 s ceiling (never exceeding 30 s), and a successful start resets the delay
to 1 s for the next failure. -/
theorem service_run_backoff :
    (∀ n : Nat, runDelays 1 (List.replicate n false)
        = (List.range n).map (fun k => min (2 ^ k) 30)) ∧
    (∀ (d : Nat) (rest : List Bool), runDelays d (true :: rest) = runDelays 1 rest) ∧
    (∀ (outs : List Bool) (x : Nat), x ∈ runDelays 1 outs → x ≤ 30) := by
  refine ⟨fun n => ?_, fun d rest => rfl, fun outs x hx => runDelays_le_30 1 (by omega) outs x hx⟩
  have := runDelays_replicate_false 0 n
  simpa using this

/-- Witness for C2: seven consecutive failures sleep 1,2,4,8,16,30,30 seconds;
a success after a long failure streak resets the next failure's delay to 1 s;
every delay in a 40-failure streak is at most 30 s. -/
theorem service_run_backoff_witness :
    runDelays 1 (List.replicate 7 false) = [1, 2, 4, 8, 16, 30, 30] ∧
    runDelays 16 (true :: [false]) = [1] ∧ (30 : Nat) ≤ 30 := by
  refine ⟨?_, ?_,
    service_run_backoff.2.2 (List.replicate 7 false) 30 (by decide)⟩
  · rw [service_run_backoff.1 7]
    decide
  · rw [service_run_backoff.2.1 16 [false]]
    decide

/-! #### Pub/sub lemmas -/

theorem foldApply_cons (g : Chan → Chan) (x : Nat) (xs : List Nat) (f : Nat → Chan) :
    foldApply g (x :: xs) f
      = foldApply g xs (fun j => if j = x then g (f j) else f j) := by
  simp [foldApply]

theorem foldApply_not_mem (g : Chan → Chan) (ids : List Nat) (f : Nat → Chan)
    (i : Nat) (hi : i ∉ ids) : foldApply g ids f i = f i := by
  induction ids generalizing f with
  | nil => rfl
  | cons x xs ih =>
    rw [foldApply_cons]
    have hx : i ≠ x := fun h => hi (h ▸ List.mem_cons_self x xs)
    have hxs : i ∉ xs := fun h => hi (List.mem_cons_of_mem x h)
    rw [ih _ hxs]
    simp [hx]

theorem foldApply_mem_nodup (g : Chan → Chan) (ids : List Nat) (f : Nat → Chan)
    (i : Nat) (hnd : ids.Nodup) (hi : i ∈ ids) : foldApply g ids f i = g (f i) := by
  induction ids generalizing f with
  | nil => cases hi
  | cons x xs ih =>
    rw [foldApply_cons]
    rcases List.mem_cons.mp hi with rfl | hmem
    · have hx : i ∉ xs := (List.nodup_cons.mp hnd).1
      rw [foldApply_not_mem _ _ _ _ hx]
      simp
    · by_cases hx : i = x
      · subst hx
        have : i ∉ xs := (List.nodup_cons.mp hnd).1
        exact absurd hmem this
      · rw [ih _ (List.nodup_cons.mp hnd).2 hmem]
        simp [hx]

theorem removeFirst_sublist (l : List Nat) (t : Nat) : List.Sublist (removeFirst l t) l := by
  induction l with
  | nil => simp [removeFirst]
  | cons x xs ih =>
    unfold removeFirst
    split
    · exact List.sublist_cons_self x xs
    · exact ih.cons₂ x

theorem not_mem_removeFirst (l : List Nat) (t : Nat) (hnd : l.Nodup) :
    t ∉ removeFirst l t := by
  induction l with
  | nil => simp [removeFirst]
  | cons x xs ih =>
    unfold removeFirst
    split
    · rename_i hx
      subst hx
      exact (List.nodup_cons.mp hnd).1
    · rename_i hx
      intro hmem
      rcases List.mem_cons.mp hmem with h | h
      · exact hx h.symm
      · exact ih (List.nodup_cons.mp hnd).2 h

/-- Reachability invariant of the subscriber set: no duplicate channels, and
every subscribed channel id was issued by `Subscribe`. -/
def SvcWF (s : SvcState) : Prop :=
  s.subs.Nodup ∧ ∀ i ∈ s.subs, i < s.nextId

theorem svcApply_wf (s : SvcState) (op : SvcOp) (h : SvcWF s) : SvcWF (svcApply s op) := by
  obtain ⟨hnd, hlt⟩ := h
  cases op with
  | subscribe =>
    refine ⟨?_, ?_⟩
    · simp only [svcApply, svcSubscribe]
      rw [List.nodup_append]
      refine ⟨hnd, List.nodup_singleton _, ?_⟩
      intro a ha hb
      have := hlt a ha
      simp only [List.mem_singleton] at hb
      omega
    · intro i hi
      simp only [svcApply, svcSubscribe] at hi ⊢
      rcases List.mem_append.mp hi with h | h
      · exact Nat.lt_succ_of_lt (hlt i h)
      · simp only [List.mem_singleton] at h
        omega
  | publish u => exact ⟨hnd, hlt⟩
  | unsubscribe id =>
    refine ⟨hnd.sublist (removeFirst_sublist _ _), ?_⟩
    intro i hi
    exact hlt i ((removeFirst_sublist s.subs id).mem hi)

theorem svcRun_wf (ops : List SvcOp) (s : SvcState) (h : SvcWF s) :
    SvcWF (svcRun s ops) := by
  induction ops generalizing s with
  | nil => exact h
  | cons op ops ih => exact ih _ (svcApply_wf s op h)

theorem svcInit_wf : SvcWF svcInit := ⟨List.nodup_nil, by simp [svcInit]⟩

theorem trySend_head (c : Chan) (u : Update) (v : Update)
    (h : c.buf.head? = some v) : (trySend c u).buf.head? = some v := by
  unfold trySend
  split
  · simp only [List.head?_append, h]
    rfl
  · exact h

theorem foldApply_trySend_head (u : Update) (ids : List Nat) (f : Nat → Chan)
    (i : Nat) (v : Update) (h : (f i).buf.head? = some v) :
    ((foldApply (fun c => trySend c u) ids f) i).buf.head? = some v := by
  induction ids generalizing f with
  | nil => exact h
  | cons x xs ih =>
    rw [foldApply_cons]
    apply ih
    by_cases hx : i = x
    · simp only [hx, if_pos rfl]
      exact trySend_head _ _ _ (hx ▸ h)
    · simp only [if_neg hx]
      exact h

theorem svcApply_head (s : SvcState) (op : SvcOp) (id : Nat) (v : Update)
    (hid : id < s.nextId) (hh : (s.chans id).buf.head? = some v) :
    id < (svcApply s op).nextId ∧ ((svcApply s op).chans id).buf.head? = some v := by
  cases op with
  | subscribe =>
    refine ⟨Nat.lt_succ_of_lt hid, ?_⟩
    simp only [svcApply, svcSubscribe]
    rw [if_neg (Nat.ne_of_lt hid)]
    exact hh
  | publish u =>
    exact ⟨hid, foldApply_trySend_head u s.subs s.chans id v hh⟩
  | unsubscribe j => exact ⟨hid, hh⟩

theorem svcRun_head (ops : List SvcOp) (s : SvcState) (id : Nat) (v : Update)
    (hid : id < s.nextId) (hh : (s.chans id).buf.head? = some v) :
    ((svcRun s ops).chans id).buf.head? = some v := by
  induction ops generalizing s with
  | nil => exact hh
  | cons op ops ih =>
    obtain ⟨h1, h2⟩ := svcApply_head s op id v hid hh
    exact ih _ h1 h2

theorem svcRun_lastEvent (ops : List SvcOp) (s : SvcState) :
    (svcRun s ops).lastEvent
      = ops.foldl (fun acc op => match op with | .publish u => u | _ => acc) s.lastEvent := by
  induction ops generalizing s with
  | nil => rfl
  | cons op ops ih =>
    rw [List.foldl_cons]
    cases op with
    | subscribe => exact ih _
    | publish u => exact ih _
    | unsubscribe j => exact ih _

/-- C3: for every interleaving of publishes and subscriptions, a `Subscribe`
call primes the fresh channel with the last update published before it
(initially the `Init` update), and that value stays at the front of the
channel's buffer under any further operations — so the subscriber's first
receive is that update, never an empty or undefined read. -/
theorem subscribe_first_received (ops₁ ops₂ : List SvcOp) :
    ((svcRun (svcSubscribe (svcRun svcInit ops₁)) ops₂).chans
        (svcRun svcInit ops₁).nextId).buf.head?
      = some (lastPublished ops₁) := by
  have hlast : (svcRun svcInit ops₁).lastEvent = lastPublished ops₁ := by
    rw [svcRun_lastEvent]
    rfl
  apply svcRun_head
  · show (svcRun svcInit ops₁).nextId < (svcRun svcInit ops₁).nextId + 1
    omega
  · simp [svcSubscribe, hlast]

/-! #### Unsubscribe isolation and non-blocking publish (C4) -/

theorem svcApply_untouched (s : SvcState) (op : SvcOp) (id : Nat)
    (hid : id < s.nextId) (hmem : id ∉ s.subs) :
    (svcApply s op).chans id = s.chans id ∧ id ∉ (svcApply s op).subs ∧
      id < (svcApply s op).nextId := by
  cases op with
  | subscribe =>
    refine ⟨?_, ?_, Nat.lt_succ_of_lt hid⟩
    · simp only [svcApply, svcSubscribe]
      rw [if_neg (Nat.ne_of_lt hid)]
    · simp only [svcApply, svcSubscribe]
      intro h
      rcases List.mem_append.mp h with h | h
      · exact hmem h
      · simp only [List.mem_singleton] at h
        omega
  | publish u =>
    refine ⟨?_, hmem, hid⟩
    simp only [svcApply, svcPublish]
    exact foldApply_not_mem _ _ _ _ hmem
  | unsubscribe j =>
    exact ⟨rfl, fun h => hmem ((removeFirst_sublist s.subs j).mem h), hid⟩

theorem svcRun_untouched (ops : List SvcOp) (s : SvcState) (id : Nat)
    (hid : id < s.nextId) (hmem : id ∉ s.subs) :
    (svcRun s ops).chans id = s.chans id := by
  induction ops generalizing s with
  | nil => rfl
  | cons op ops ih =>
    obtain ⟨h1, h2, h3⟩ := svcApply_untouched s op id hid hmem
    show (svcRun (svcApply s op) ops).chans id = s.chans id
    rw [ih _ h3 h2, h1]

/-- C4: after `Unsubscribe(ch)` (which itself modifies no channel, in
particular never closes one), no sequence of further operations — publishes
included — ever changes the removed channel; and `notifySubscribers` is a
total, non-blocking fan-out: a full subscriber buffer drops that update for
that subscriber only, while subscribers with room receive it. -/
theorem unsubscribe_publish_isolation (ops₀ : List SvcOp) (id : Nat)
    (hid : id < (svcRun svcInit ops₀).nextId) :
    (∀ j : Nat, ((svcUnsubscribe (svcRun svcInit ops₀) id).chans j)
        = (svcRun svcInit ops₀).chans j) ∧
    (∀ ops₂ : List SvcOp,
      ((svcRun (svcUnsubscribe (svcRun svcInit ops₀) id) ops₂).chans id)
        = (svcRun svcInit ops₀).chans id) ∧
    (∀ (u : Update) (j : Nat), j ∈ (svcRun svcInit ops₀).subs →
      5 ≤ ((svcRun svcInit ops₀).chans j).buf.length →
      ((svcPublish (svcRun svcInit ops₀) u).chans j) = (svcRun svcInit ops₀).chans j) ∧
    (∀ (u : Update) (j : Nat), j ∈ (svcRun svcInit ops₀).subs →
      ((svcRun svcInit ops₀).chans j).buf.length < 5 →
      ((svcPublish (svcRun svcInit ops₀) u).chans j).buf
        = ((svcRun svcInit ops₀).chans j).buf ++ [u]) := by
  obtain ⟨hnd, hlt⟩ := svcRun_wf ops₀ svcInit svcInit_wf
  refine ⟨fun j => rfl, ?_, ?_, ?_⟩
  · intro ops₂
    exact svcRun_untouched ops₂ _ id hid
      (not_mem_removeFirst _ id hnd)
  · intro u j hj hfull
    simp only [svcPublish]
    rw [foldApply_mem_nodup _ _ _ _ hnd hj]
    unfold trySend
    rw [if_neg (by omega)]
  · intro u j hj hroom
    simp only [svcPublish]
    rw [foldApply_mem_nodup _ _ _ _ hnd hj]
    unfold trySend
    rw [if_pos hroom]

/-- Witness for C4 at a concrete run: one subscriber subscribes and
unsubscribes; a publish afterwards leaves its channel exactly as it was
(primed with `Init`, not closed), while a second, still-subscribed channel
with room receives the update. -/
theorem unsubscribe_publish_isolation_witness :
    ((svcRun (svcUnsubscribe (svcRun svcInit [.subscribe, .subscribe]) 0)
        [.publish downUpdate]).chans 0)
      = (svcRun svcInit [.subscribe, .subscribe]).chans 0 ∧
    ((svcPublish (svcRun svcInit [.subscribe, .subscribe]) downUpdate).chans 1).buf
      = ((svcRun svcInit [.subscribe, .subscribe]).chans 1).buf ++ [downUpdate] := by
  have h := unsubscribe_publish_isolation [.subscribe, .subscribe] 0 (by decide)
  exact ⟨h.2.1 [.publish downUpdate],
    h.2.2.2 downUpdate 1 (by decide) (by decide)⟩

/-! #### Shutdown completeness (C5) -/

/-- C5: `Stop()` (first call, via `unsubscribeAll`) leaves the subscriber set
empty, and every previously live channel is closed after being offered exactly
one final `Down` update — appended when its buffer has room within the
bounded 5-second wait, dropped otherwise. -/
theorem stop_closes_all_subscribers (s : SvcState)
    (hnd : s.subs.Nodup) (hstop : s.stopped = false) :
    (svcStop s).subs = [] ∧ (svcStop s).stopped = true ∧
    ∀ id ∈ s.subs,
      ((svcStop s).chans id).closed = true ∧
      ((s.chans id).buf.length < 5 →
        ((svcStop s).chans id).buf = (s.chans id).buf ++ [downUpdate]) ∧
      (¬ (s.chans id).buf.length < 5 →
        ((svcStop s).chans id).buf = (s.chans id).buf) := by
  unfold svcStop
  rw [if_neg (by simp [hstop])]
  unfold svcUnsubscribeAll
  by_cases hsubs : s.subs = []
  · rw [if_pos hsubs]
    refine ⟨hsubs, rfl, ?_⟩
    intro id hmem
    rw [hsubs] at hmem
    cases hmem
  · rw [if_neg hsubs]
    refine ⟨rfl, rfl, ?_⟩
    intro id hmem
    have hch : foldApply offerDownAndClose s.subs s.chans id
        = offerDownAndClose (s.chans id) :=
      foldApply_mem_nodup _ _ _ _ hnd hmem
    simp only [hch]
    unfold offerDownAndClose
    refine ⟨?_, ?_, ?_⟩
    · split <;> rfl
    · intro hroom
      rw [if_pos hroom]
    · intro hfull
      rw [if_neg hfull]

/-- Witness for C5: stopping a service with two live subscribers closes both
channels, appends one `Down` each (both have room), and empties the set. -/
theorem stop_closes_all_subscribers_witness :
    (svcStop (svcRun svcInit [.subscribe, .subscribe])).subs = [] ∧
    ((svcStop (svcRun svcInit [.subscribe, .subscribe])).chans 0).closed = true ∧
    ((svcStop (svcRun svcInit [.subscribe, .subscribe])).chans 1).buf
      = ((svcRun svcInit [.subscribe, .subscribe]).chans 1).buf ++ [downUpdate] := by
  have h := stop_closes_all_subscribers (svcRun svcInit [.subscribe, .subscribe])
    (by decide) (by decide)
  exact ⟨h.1, (h.2.2 0 (by decide)).1, (h.2.2 1 (by decide)).2.1 (by decide)⟩

/-! #### Auto-unlock lemmas (C1) -/

theorem auStep_consume_retryable (a t : Nat) (rest : List UnlockResult)
    (h : a < auMaxAttempts) :
    auStep ⟨a, false, t⟩ (.retryableCode :: rest) .timerFire
      = .inr (⟨a + 1, false, auRetryDelay⟩, rest) := by
  simp only [auStep, Bool.false_eq_true, if_false]
  rw [if_neg (Nat.not_le.mpr h)]

theorem auStep_inv (s : AUState) (sc : List UnlockResult) (i : AUIn)
    (s1 : AUState) (sc1 : List UnlockResult) (hle : s.attempts ≤ 30)
    (h : auStep s sc i = .inr (s1, sc1)) :
    s1.attempts ≤ 30 ∧ s1.attempts + sc1.length = s.attempts + sc.length := by
  cases i with
  | upd st =>
    cases st <;> simp only [auStep] at h <;> try exact Sum.noConfusion h
    all_goals
      injection h with h'
      injection h' with ha hb
      subst ha
      subst hb
      exact ⟨hle, rfl⟩
  | subClosed => exact Sum.noConfusion h
  | timerFire =>
    simp only [auStep] at h
    split at h
    · injection h with h'
      injection h' with ha hb
      subst ha
      subst hb
      exact ⟨hle, rfl⟩
    · split at h
      · exact Sum.noConfusion h
      · rename_i hnmax
        rw [Nat.not_le] at hnmax
        simp only [auMaxAttempts] at hnmax
        cases sc with
        | nil => exact Sum.noConfusion h
        | cons r rest =>
          cases r <;> simp only [auStep] at h <;> try exact Sum.noConfusion h
          all_goals
            injection h with h'
            injection h' with ha hb
            subst ha
            subst hb
            refine ⟨?_, ?_⟩ <;> dsimp only <;> (try simp only [List.length_cons]) <;> omega

theorem auRun_inv (is : List AUIn) :
    ∀ (s : AUState) (sc : List UnlockResult) (s2 : AUState) (sc2 : List UnlockResult),
    s.attempts ≤ 30 → auRun s sc is = .inr (s2, sc2) →
    s2.attempts ≤ 30 ∧ s2.attempts + sc2.length = s.attempts + sc.length := by
  induction is with
  | nil =>
    intro s sc s2 sc2 hle h
    simp only [auRun] at h
    injection h with h'
    injection h' with ha hb
    subst ha
    subst hb
    exact ⟨hle, rfl⟩
  | cons i is ih =>
    intro s sc s2 sc2 hle h
    rcases hstep : auStep s sc i with o | ⟨s1, sc1⟩
    · rw [auRun, hstep] at h
      exact Sum.noConfusion h
    · rw [auRun, hstep] at h
      obtain ⟨h1, h2⟩ := auStep_inv s sc i s1 sc1 hle hstep
      obtain ⟨h3, h4⟩ := ih s1 sc1 s2 sc2 h1 h
      exact ⟨h3, by omega⟩

theorem auRun_retryable_prefix (k : Nat) :
    ∀ (a t : Nat) (rest : List UnlockResult) (is : List AUIn), a + k ≤ 30 →
    auRun ⟨a, false, t⟩ (List.replicate k .retryableCode ++ rest)
        (List.replicate k .timerFire ++ is)
      = auRun ⟨a + k, false, if k = 0 then t else auRetryDelay⟩ rest is := by
  induction k with
  | zero =>
    intro a t rest is h
    simp [auRun]
  | succ k ih =>
    intro a t rest is h
    rw [List.replicate_succ, List.replicate_succ, List.cons_append, List.cons_append]
    rw [auRun, auStep_consume_retryable a t _ (by simp only [auMaxAttempts]; omega)]
    show auRun ⟨a + 1, false, auRetryDelay⟩
        (List.replicate k UnlockResult.retryableCode ++ rest)
        (List.replicate k AUIn.timerFire ++ is) = _
    rw [ih (a + 1) auRetryDelay rest is (by omega)]
    congr 1
    simp only [AUState.mk.injEq]
    refine ⟨by omega, by simp, by simp⟩

/-- C1 (amended): in `autoUnlockAfterRescan`, an unlock error with gRPC code
unavailable / canceled / deadline-exceeded / failed-precondition / unknown
re-arms the timer at the 5-second retry delay and retries, with the attempt
counter never exceeding 30 (each retry consumes one of the at most 30 unlock
attempts); an "already unlocked" response at any attempt ends the flow
successfully; an "invalid passphrase" response at any attempt ends it
immediately with the sentinel `errInvalidPassphrase`; and N "RPC unavailable"
responses followed by a successful unlock (plus its `Unlocked` confirmation)
yield overall success exactly when N ≤ 29 — the successful call must fit
inside the 30-attempt budget — while N ≥ 30 is a terminal failure. -/
theorem autoUnlock_bounded_retry :
    (∀ (a t : Nat) (rest : List UnlockResult), a < auMaxAttempts →
      auStep ⟨a, false, t⟩ (.retryableCode :: rest) .timerFire
        = .inr (⟨a + 1, false, auRetryDelay⟩, rest)) ∧
    (∀ (is : List AUIn) (sc : List UnlockResult) (s2 : AUState) (sc2 : List UnlockResult),
      auRun auInit sc is = .inr (s2, sc2) →
      s2.attempts ≤ 30 ∧ sc.length - sc2.length ≤ 30) ∧
    (∀ (a t : Nat) (rest : List UnlockResult) (is : List AUIn), a < auMaxAttempts →
      auRun ⟨a, false, t⟩ (.alreadyUnlocked :: rest) (.timerFire :: is) = .inl .ok) ∧
    (∀ (a t : Nat) (rest : List UnlockResult) (is : List AUIn), a < auMaxAttempts →
      auRun ⟨a, false, t⟩ (.invalidPassphrase :: rest) (.timerFire :: is)
        = .inl .invalidPass) ∧
    (∀ N : Nat, N ≤ 29 →
      auRun auInit (List.replicate N .retryableCode ++ [.accepted])
        (List.replicate (N + 1) .timerFire ++ [.upd .unlocked]) = .inl .ok) ∧
    (∀ N : Nat, 30 ≤ N →
      auRun auInit (List.replicate N .retryableCode ++ [.accepted])
        (List.replicate (N + 1) .timerFire ++ [.upd .unlocked]) = .inl .maxAttempts) := by
  refine ⟨auStep_consume_retryable, ?_, ?_, ?_, ?_, ?_⟩
  · intro is sc s2 sc2 h
    obtain ⟨h1, h2⟩ := auRun_inv is auInit sc s2 sc2 (by simp [auInit]) h
    simp only [auInit] at h2
    exact ⟨h1, by omega⟩
  · intro a t rest is h
    rw [auRun]
    have h1 : auStep ⟨a, false, t⟩ (.alreadyUnlocked :: rest) .timerFire = .inl .ok := by
      simp only [auStep, Bool.false_eq_true, if_false]
      rw [if_neg (Nat.not_le.mpr h)]
    rw [h1]
  · intro a t rest is h
    rw [auRun]
    have h1 : auStep ⟨a, false, t⟩ (.invalidPassphrase :: rest) .timerFire
        = .inl .invalidPass := by
      simp only [auStep, Bool.false_eq_true, if_false]
      rw [if_neg (Nat.not_le.mpr h)]
    rw [h1]
  · intro N hN
    have e1 : List.replicate (N + 1) AUIn.timerFire ++ [AUIn.upd Status.unlocked]
        = List.replicate N AUIn.timerFire ++ (.timerFire :: [.upd .unlocked]) := by
      rw [List.replicate_add, List.replicate_one]
      simp
    simp only [auInit]
    rw [e1, auRun_retryable_prefix N 0 0 [.accepted]
      (.timerFire :: [.upd .unlocked]) (by omega)]
    have h1 : auStep ⟨0 + N, false, if N = 0 then 0 else auRetryDelay⟩
        [UnlockResult.accepted] .timerFire
        = .inr (⟨0 + N + 1, true, auRetryDelay⟩, []) := by
      simp only [auStep, Bool.false_eq_true, if_false]
      rw [if_neg (by simp only [auMaxAttempts]; omega)]
    rw [auRun, h1]
    rfl
  · intro N hN
    obtain ⟨m, rfl⟩ := Nat.exists_eq_add_of_le hN
    have e1 : List.replicate (30 + m) UnlockResult.retryableCode ++ [UnlockResult.accepted]
        = List.replicate 30 UnlockResult.retryableCode
            ++ (List.replicate m UnlockResult.retryableCode ++ [UnlockResult.accepted]) := by
      rw [List.replicate_add]
      simp
    have e2 : List.replicate (30 + m + 1) AUIn.timerFire ++ [AUIn.upd Status.unlocked]
        = List.replicate 30 AUIn.timerFire
            ++ (.timerFire :: (List.replicate m AUIn.timerFire ++ [AUIn.upd Status.unlocked])) := by
      rw [show 30 + m + 1 = 30 + (m + 1) by omega, List.replicate_add]
      simp [List.replicate_succ]
    simp only [auInit]
    rw [e1, e2, auRun_retryable_prefix 30 0 0 _ _ (by omega)]
    have h1 : auStep ⟨0 + 30, false, if 30 = 0 then 0 else auRetryDelay⟩
        (List.replicate m UnlockResult.retryableCode ++ [UnlockResult.accepted]) .timerFire
        = .inl .maxAttempts := by
      simp only [auStep, Bool.false_eq_true, if_false]
      rw [if_pos (by simp [auMaxAttempts])]
    rw [auRun, h1]

/-- Counterexample to C1 as stated: exactly 30 "RPC unavailable" unlock
responses followed by a would-be successful unlock do NOT yield overall
success — the 31st timer fire hits the 30-attempt bound and the flow fails
terminally before the successful unlock is ever attempted. -/
theorem autoUnlock_claim_counterexample :
    auRun auInit (List.replicate 30 .retryableCode ++ [.accepted])
      (List.replicate 31 .timerFire ++ [.upd .unlocked]) = .inl .maxAttempts ∧
    auRun auInit (List.replicate 30 .retryableCode ++ [.accepted])
      (List.replicate 31 .timerFire ++ [.upd .unlocked]) ≠ .inl .ok := by
  exact ⟨by decide, by decide⟩

/-- Witness for C1 (amended): 3 unavailable responses then success unlocks
the wallet; 31 unavailable responses fail terminally; an invalid passphrase
at attempt 8 aborts with the sentinel error. -/
theorem autoUnlock_bounded_retry_witness :
    auRun auInit (List.replicate 3 .retryableCode ++ [.accepted])
      (List.replicate 4 .timerFire ++ [.upd .unlocked]) = .inl .ok ∧
    auRun auInit (List.replicate 31 .retryableCode ++ [.accepted])
      (List.replicate 32 .timerFire ++ [.upd .unlocked]) = .inl .maxAttempts ∧
    auRun ⟨7, false, 0⟩ [.invalidPassphrase] [.timerFire] = .inl .invalidPass := by
  exact ⟨autoUnlock_bounded_retry.2.2.2.2.1 3 (by decide),
    autoUnlock_bounded_retry.2.2.2.2.2 31 (by decide),
    autoUnlock_bounded_retry.2.2.2.1 7 0 [] [] (by decide)⟩

/-! #### Recovery best-status tracking (C8) -/

theorem maxUtxoCount_nonneg (l : List RecoveryStatus) : 0 ≤ maxUtxoCount l := by
  induction l with
  | nil => simp [maxUtxoCount]
  | cons s ts ih =>
    simp only [maxUtxoCount, List.foldr_cons] at ih ⊢
    exact le_trans ih (le_max_right _ _)

theorem le_maxUtxoCount (l : List RecoveryStatus) (s : RecoveryStatus) (h : s ∈ l) :
    s.utxoCount ≤ maxUtxoCount l := by
  induction l with
  | nil => cases h
  | cons x ts ih =>
    simp only [maxUtxoCount, List.foldr_cons]
    rcases List.mem_cons.mp h with rfl | hmem
    · exact le_max_left _ _
    · exact le_trans (ih hmem) (le_max_right _ _)

theorem bestCount_nonneg (m : ProgressTrack) (h : BestPos m) : 0 ≤ bestCount m := by
  unfold bestCount
  cases hb : m.bestStatus with
  | none => simp
  | some b => exact le_of_lt (h b hb)

theorem bestCount_eq_none {m : ProgressTrack} (h : m.bestStatus = none) :
    bestCount m = 0 := by
  unfold bestCount
  rw [h]

theorem bestCount_eq_some {m : ProgressTrack} {b : RecoveryStatus}
    (h : m.bestStatus = some b) : bestCount m = b.utxoCount := by
  unfold bestCount
  rw [h]

theorem updateStatus_step (m : ProgressTrack) (s : RecoveryStatus)
    (hinv : BestPos m) (hs : 0 ≤ s.utxoCount) :
    BestPos (updateStatus m (some s)) ∧
    bestCount (updateStatus m (some s)) = max (bestCount m) s.utxoCount ∧
    (updateStatus m (some s)).lastStatus = some s := by
  have hbc := bestCount_nonneg m hinv
  unfold updateStatus
  dsimp only
  by_cases h : shouldReplaceBest m.bestStatus s = true
  · rw [if_pos h]
    unfold shouldReplaceBest at h
    simp only [Bool.and_eq_true, decide_eq_true_eq] at h
    obtain ⟨hpos, hcond⟩ := h
    refine ⟨?_, ?_, rfl⟩
    · intro b hb
      simp only at hb
      injection hb with hb2
      subst hb2
      exact hpos
    · have e1 : bestCount { lastStatus := some s, bestStatus := some s } = s.utxoCount := rfl
      rw [e1]
      have hle : bestCount m ≤ s.utxoCount := by
        rcases hb : m.bestStatus with _ | b
        · rw [bestCount_eq_none hb]
          omega
        · rw [hb] at hcond
          dsimp only at hcond
          rw [bestCount_eq_some hb]
          exact of_decide_eq_true hcond
      omega
  · rw [if_neg h]
    refine ⟨?_, ?_, rfl⟩
    · intro b hb
      simp only at hb
      exact hinv b hb
    · have e1 : bestCount { lastStatus := some s, bestStatus := m.bestStatus } = bestCount m := rfl
      rw [e1]
      have hle : s.utxoCount ≤ bestCount m := by
        unfold shouldReplaceBest at h
        simp only [Bool.and_eq_true, decide_eq_true_eq, not_and] at h
        by_cases hp : 0 < s.utxoCount
        · have h2 := h hp
          rcases hb : m.bestStatus with _ | b
          · rw [hb] at h2
            simp at h2
          · rw [hb] at h2
            dsimp only at h2
            simp only [decide_eq_true_eq] at h2
            rw [bestCount_eq_some hb]
            omega
        · omega
      omega

theorem recordStatuses_run (l : List RecoveryStatus) :
    ∀ m : ProgressTrack, BestPos m → (∀ s ∈ l, 0 ≤ s.utxoCount) → l ≠ [] →
    BestPos (l.foldl (fun m s => updateStatus m (some s)) m) ∧
    bestCount (l.foldl (fun m s => updateStatus m (some s)) m)
      = max (bestCount m) (maxUtxoCount l) ∧
    ∃ s ∈ l, (l.foldl (fun m s => updateStatus m (some s)) m).lastStatus = some s := by
  induction l with
  | nil =>
    intro m _ _ h
    exact absurd rfl h
  | cons s ts ih =>
    intro m hinv hnn _
    have hs : 0 ≤ s.utxoCount := hnn s (List.mem_cons_self s ts)
    obtain ⟨h1, h2, h3⟩ := updateStatus_step m s hinv hs
    by_cases hts : ts = []
    · subst hts
      simp only [List.foldl_cons, List.foldl_nil]
      refine ⟨h1, ?_, ⟨s, List.mem_cons_self s [], h3⟩⟩
      rw [h2]
      unfold maxUtxoCount
      simp only [List.foldr_cons, List.foldr_nil]
      omega
    · have ihh := ih (updateStatus m (some s)) h1
        (fun x hx => hnn x (List.mem_cons_of_mem s hx)) hts
      obtain ⟨g1, g2, g3⟩ := ihh
      refine ⟨?_, ?_, ?_⟩
      · simpa only [List.foldl_cons] using g1
      · simp only [List.foldl_cons]
        rw [g2, h2]
        unfold maxUtxoCount
        simp only [List.foldr_cons]
        omega
      · obtain ⟨x, hx, hxe⟩ := g3
        exact ⟨x, List.mem_cons_of_mem s hx, by simpa only [List.foldl_cons] using hxe⟩

/-- C8: the rescan progress view's best-status tracking is monotonic — the
stored best snapshot is only replaced when the incoming `UTXOCount` is equal
or larger — and for every non-empty sequence of recorded snapshots with
non-negative counts (counts are `len(utxos)` in `GetRecoveryStatus`), the
finally reported recovered count is the maximum `UTXOCount` observed. -/
theorem rescan_best_status_monotonic :
    (∀ (m : ProgressTrack) (s b : RecoveryStatus),
      (updateStatus m (some s)).bestStatus ≠ m.bestStatus →
      m.bestStatus = some b → b.utxoCount ≤ s.utxoCount) ∧
    (∀ l : List RecoveryStatus, l ≠ [] → (∀ s ∈ l, 0 ≤ s.utxoCount) →
      reportedCount (recordStatuses l) = some (maxUtxoCount l)) := by
  constructor
  · intro m s b hne hb
    unfold updateStatus at hne
    dsimp only at hne
    by_cases h : shouldReplaceBest m.bestStatus s = true
    · unfold shouldReplaceBest at h
      simp only [Bool.and_eq_true, decide_eq_true_eq] at h
      have h2 := h.2
      rw [hb] at h2
      dsimp only at h2
      simpa only [decide_eq_true_eq] using h2
    · rw [if_neg h] at hne
      exact absurd rfl hne
  · intro l hne hnn
    have hinv0 : BestPos progressTrackInit := by
      intro b hb
      simp [progressTrackInit] at hb
    obtain ⟨g1, g2, g3⟩ := recordStatuses_run l progressTrackInit hinv0 hnn hne
    unfold recordStatuses reportedCount getLastStatus
    have hmax0 : max (bestCount progressTrackInit) (maxUtxoCount l) = maxUtxoCount l := by
      have e0 : bestCount progressTrackInit = 0 := rfl
      rw [e0]
      exact max_eq_right (maxUtxoCount_nonneg l)
    rw [hmax0] at g2
    rcases hb : (l.foldl (fun m s => updateStatus m (some s)) progressTrackInit).bestStatus
      with _ | b
    · rw [bestCount_eq_none hb] at g2
      obtain ⟨x, hx, hxe⟩ := g3
      rw [hxe]
      dsimp only [Option.map]
      have h1 := le_maxUtxoCount l x hx
      have h2 := hnn x hx
      have h3 : x.utxoCount = maxUtxoCount l := by omega
      rw [h3]
    · dsimp only [Option.map]
      rw [bestCount_eq_some hb] at g2
      rw [g2]

/-- Witness for C8: the snapshot count sequence [5, 3, 8, 2] reports a final
recovered count of 8 (the maximum observed), never a smaller value. -/
theorem rescan_best_status_monotonic_witness :
    reportedCount (recordStatuses
      [⟨0, 5⟩, ⟨1, 3⟩, ⟨2, 8⟩, ⟨3, 2⟩]) = some 8 := by
  have h := rescan_best_status_monotonic.2
    [⟨0, 5⟩, ⟨1, 3⟩, ⟨2, 8⟩, ⟨3, 2⟩] (by decide) (by decide)
  rw [h]
  decide

/-! #### daemon.stop guard (C9) -/

/-- Counterexample to C9 as stated: `stop()` never sets the `closed` flag it
checks (only `waitForShutdown()` does), so a second `stop()` right after a
completed first one is NOT a no-op — it closes the RPC connection, cancels
the context and signals shutdown a second time. -/
theorem daemon_stop_claim_counterexample :
    daemonStop (daemonStop daemonFresh) ≠ daemonStop daemonFresh ∧
    (daemonStop (daemonStop daemonFresh)).connCloses = 2 ∧
    (daemonStop daemonFresh).connCloses = 1 := by
  refine ⟨by decide, by decide, by decide⟩

/-- C9 (amended): `daemon.stop()` is guarded by `d.closed`, but that flag is
set by `waitForShutdown()` (after the run task exits), not by `stop()`
itself: any `stop()` on a closed daemon is a no-op — in particular a second
`stop()` after `waitForShutdown` — while repeated `stop()` calls before
`waitForShutdown` re-close the connection, re-cancel the context and
re-signal shutdown each time. -/
theorem daemon_stop_guarded :
    (∀ d : DaemonState, d.closed = true → daemonStop d = d) ∧
    (∀ d : DaemonState, daemonStop (daemonWaitForShutdown d) = daemonWaitForShutdown d) ∧
    (∀ d : DaemonState, d.closed = false →
      (daemonStop (daemonStop d)).connCloses = d.connCloses + 2 ∧
      (daemonStop (daemonStop d)).cancels = d.cancels + 2 ∧
      (daemonStop (daemonStop d)).shutdownRequests = d.shutdownRequests + 2) := by
  refine ⟨?_, ?_, ?_⟩
  · intro d h
    unfold daemonStop
    rw [if_pos h]
  · intro d
    unfold daemonStop daemonWaitForShutdown
    simp
  · intro d h
    simp [daemonStop, h]

/-- Witness for C9 (amended): after `stop(); waitForShutdown()` a further
`stop()` is a no-op; two bare `stop()` calls on a fresh daemon close the
connection twice. -/
theorem daemon_stop_guarded_witness :
    daemonStop (daemonWaitForShutdown daemonFresh) = daemonWaitForShutdown daemonFresh ∧
    daemonStop (daemonWaitForShutdown (daemonStop daemonFresh))
      = daemonWaitForShutdown (daemonStop daemonFresh) ∧
    (daemonStop (daemonStop daemonFresh)).connCloses = daemonFresh.connCloses + 2 := by
  exact ⟨daemon_stop_guarded.1 (daemonWaitForShutdown daemonFresh) (by decide),
    daemon_stop_guarded.2.1 (daemonStop daemonFresh),
    (daemon_stop_guarded.2.2 daemonFresh (by decide)).1⟩

/-! #### ReleaseOutputs empty fast-path (C10) -/

/-- C10: `Service.ReleaseOutputs` (and `Client.ReleaseOutputs`) with an
empty lock list return `nil` immediately, before the connection guard — they
succeed even with no live daemon connection (and even while the client is
closing) — whereas a non-empty lock list with no live connection (or a
closing client) fails with the daemon-not-running error. -/
theorem releaseOutputs_empty_fast_path :
    (∀ client : Option (Bool × (OutputLock → Option Nat)),
      serviceReleaseOutputs client [] = .ok ()) ∧
    (∀ locks : List (Option OutputLock), locks ≠ [] →
      serviceReleaseOutputs Option.none locks = .error .daemonNotRunning) ∧
    (∀ release : OutputLock → Option Nat,
      clientReleaseOutputs true release [] = .ok ()) ∧
    (∀ (release : OutputLock → Option Nat) (locks : List (Option OutputLock)),
      locks ≠ [] → clientReleaseOutputs true release locks = .error .daemonNotRunning) := by
  refine ⟨fun client => rfl, ?_, fun release => rfl, ?_⟩
  · intro locks h
    unfold serviceReleaseOutputs
    rw [if_neg h]
  · intro release locks h
    unfold clientReleaseOutputs
    rw [if_neg h, if_pos rfl]

/-- Witness for C10: with no live connection, releasing an empty lock list
succeeds while releasing one concrete lock fails with daemon-not-running. -/
theorem releaseOutputs_empty_fast_path_witness :
    serviceReleaseOutputs Option.none [] = .ok () ∧
    serviceReleaseOutputs Option.none [some ⟨[1], some 0⟩]
      = .error .daemonNotRunning := by
  exact ⟨releaseOutputs_empty_fast_path.1 Option.none,
    releaseOutputs_empty_fast_path.2.1 [some ⟨[1], some 0⟩] (by decide)⟩

/-! #### Sort and de-duplication lemmas (C7) -/

theorem txLess_iff (a b : Tx) :
    txLess a b = true ↔
      (b.timeStamp < a.timeStamp ∨
        (a.timeStamp = b.timeStamp ∧ b.blockHeight < a.blockHeight)) := by
  unfold txLess
  split_ifs with h1 h2
  · simp only [decide_eq_true_eq]
    omega
  · simp only [decide_eq_true_eq]
    omega
  · simp only [Bool.false_eq_true, false_iff]
    omega

theorem txLe_iff (a b : Tx) : txLe a b = true ↔ ¬ txLess b a = true := by
  unfold txLe
  cases txLess b a <;> simp

theorem txLe_trans : ∀ (a b c : Tx), txLe a b → txLe b c → txLe a c := by
  intro a b c hab hbc
  rw [txLe_iff, txLess_iff] at hab hbc ⊢
  omega

theorem txLe_total : ∀ (a b : Tx), txLe a b || txLe b a := by
  intro a b
  simp only [Bool.or_eq_true, txLe_iff, txLess_iff]
  omega

theorem filter_sameKey_pairwise (l : List Tx) (t h : Int) :
    (l.filter (sameKey t h)).Pairwise fun a b => txLe a b = true := by
  apply List.pairwise_of_forall_mem_list
  intro a ha b hb
  rw [List.mem_filter] at ha hb
  obtain ⟨-, ha2⟩ := ha
  obtain ⟨-, hb2⟩ := hb
  unfold sameKey at ha2 hb2
  simp only [Bool.and_eq_true, decide_eq_true_eq] at ha2 hb2
  rw [txLe_iff, txLess_iff]
  omega

theorem sortTxs_sorted (l : List Tx) :
    (sortTxs l).Pairwise fun a b => txLe a b = true :=
  List.sorted_mergeSort txLe_trans txLe_total l

theorem sortTxs_perm (l : List Tx) : (sortTxs l).Perm l :=
  List.mergeSort_perm l txLe

theorem sortTxs_stable (l : List Tx) (t h : Int) :
    (sortTxs l).filter (sameKey t h) = l.filter (sameKey t h) := by
  have hsub : List.Sublist (l.filter (sameKey t h)) (sortTxs l) :=
    List.sublist_mergeSort txLe_trans txLe_total
      (filter_sameKey_pairwise l t h) (List.filter_sublist l)
  have hsub2 : List.Sublist (l.filter (sameKey t h)) ((sortTxs l).filter (sameKey t h)) := by
    have h1 := List.Sublist.filter (sameKey t h) hsub
    rw [List.filter_filter] at h1
    have h2 : l.filter (fun a => sameKey t h a && sameKey t h a) = l.filter (sameKey t h) := by
      apply List.filter_congr
      intro x _
      cases sameKey t h x <;> rfl
    rwa [h2] at h1
  have hlen : (l.filter (sameKey t h)).length = ((sortTxs l).filter (sameKey t h)).length :=
    (((sortTxs_perm l).filter (sameKey t h)).length_eq).symm
  exact (List.Sublist.eq_of_length hsub2 hlen).symm

theorem dedupByHash_sublist (seen : List String) (l : List Tx) :
    List.Sublist (dedupByHash seen l) l := by
  induction l generalizing seen with
  | nil => simp [dedupByHash]
  | cons t ts ih =>
    unfold dedupByHash
    split
    · exact (ih seen).trans (List.sublist_cons_self t ts)
    · exact (ih (t.txHash :: seen)).cons₂ t

theorem dedupByHash_countP (l : List Tx) :
    ∀ (seen : List String) (h : String),
    (dedupByHash seen l).countP (fun x => decide (x.txHash = h))
      = if h ∈ seen then 0
        else if l.any (fun x => decide (x.txHash = h)) then 1 else 0 := by
  induction l with
  | nil =>
    intro seen h
    simp [dedupByHash]
  | cons t ts ih =>
    intro seen h
    unfold dedupByHash
    by_cases hm : t.txHash ∈ seen
    · rw [if_pos hm, ih seen h]
      by_cases hh : h ∈ seen
      · simp [hh]
      · have hne : ¬ (t.txHash = h) := fun he => hh (he ▸ hm)
        simp [hh, hne]
    · rw [if_neg hm, List.countP_cons, ih (t.txHash :: seen) h]
      by_cases he : t.txHash = h
      · subst he
        simp [hm]
      · have he2 : ¬ h = t.txHash := fun x => he x.symm
        by_cases hh : h ∈ seen
        · simp [he, he2, hh]
        · simp [he, he2, hh]

theorem dedupByHash_find (l : List Tx) :
    ∀ (seen : List String) (h : String),
    (dedupByHash seen l).find? (fun x => decide (x.txHash = h))
      = if h ∈ seen then Option.none
        else l.find? (fun x => decide (x.txHash = h)) := by
  induction l with
  | nil =>
    intro seen h
    simp only [dedupByHash, List.find?_nil]
    split <;> rfl
  | cons t ts ih =>
    intro seen h
    unfold dedupByHash
    by_cases hm : t.txHash ∈ seen
    · rw [if_pos hm, ih seen h]
      by_cases hh : h ∈ seen
      · simp [hh]
      · have hne : ¬ (t.txHash = h) := fun he => hh (he ▸ hm)
        simp [hh, hne]
    · rw [if_neg hm]
      by_cases he : t.txHash = h
      · subst he
        rw [if_neg hm]
        simp
      · rw [List.find?_cons_of_neg _ (by simp [he]), ih (t.txHash :: seen) h]
        have he2 : ¬ h = t.txHash := fun x => he x.symm
        by_cases hh : h ∈ seen
        · simp [hh, he, he2]
        · simp [hh, he, he2]

/-- C7: the merge step of the slow path of `FetchTransactionsWithOptions`
(stable sort by timestamp descending then block height descending, then
de-duplication by transaction hash) produces, for every merged input list, a
list sorted in that order whose ties keep their original relative order, in
which every transaction hash of the input occurs exactly once — the first
occurrence in post-sort order is kept, and the result is a subsequence of
the sorted list. -/
theorem merge_sort_dedup_spec (l : List Tx) :
    ((mergeSortDedup l).Pairwise fun a b => txLe a b = true) ∧
    (∀ t h : Int, (sortTxs l).filter (sameKey t h) = l.filter (sameKey t h)) ∧
    (∀ h : String, (l.any fun x => decide (x.txHash = h)) = true →
      (mergeSortDedup l).countP (fun x => decide (x.txHash = h)) = 1) ∧
    (∀ h : String, (mergeSortDedup l).find? (fun x => decide (x.txHash = h))
      = (sortTxs l).find? (fun x => decide (x.txHash = h))) ∧
    List.Sublist (mergeSortDedup l) (sortTxs l) := by
  refine ⟨?_, ?_, ?_, ?_, dedupByHash_sublist [] (sortTxs l)⟩
  · exact List.Pairwise.sublist (dedupByHash_sublist [] (sortTxs l)) (sortTxs_sorted l)
  · exact fun t h => sortTxs_stable l t h
  · intro h hany
    have hany2 : ((sortTxs l).any fun x => decide (x.txHash = h)) = true := by
      rw [List.any_eq_true] at hany ⊢
      obtain ⟨x, hx, hpx⟩ := hany
      exact ⟨x, (sortTxs_perm l).mem_iff.mpr hx, hpx⟩
    unfold mergeSortDedup
    rw [dedupByHash_countP (sortTxs l) [] h, if_neg (List.not_mem_nil h), if_pos hany2]
  · intro h
    unfold mergeSortDedup
    rw [dedupByHash_find (sortTxs l) [] h, if_neg (List.not_mem_nil h)]

/-- Witness for C7: a merged list with the hash "a" duplicated across two
pages keeps exactly one occurrence of it after the sort-and-dedup step. -/
theorem merge_sort_dedup_spec_witness :
    (mergeSortDedup [⟨"a", 10, 5⟩, ⟨"b", 10, 5⟩, ⟨"a", 10, 5⟩, ⟨"c", 20, 1⟩]).countP
      (fun x => decide (x.txHash = "a")) = 1 :=
  (merge_sort_dedup_spec [⟨"a", 10, 5⟩, ⟨"b", 10, 5⟩, ⟨"a", 10, 5⟩, ⟨"c", 20, 1⟩]).2.2.1
    "a" (by decide)

/-! #### Transaction-cache fast path (C6) -/

/-- C6: when the cache is clean (`Dirty` unset), `ForceRescan` is off, the
cache age is within the 5-minute TTL, and the 1-transaction probe at index
offset `LastIndex + 1` reports no new transactions,
`FetchTransactionsWithOptions` returns the cached list (truncated to the
display limit when that limit is positive) with no error and zero paging
RPCs, only refreshing the cache's timestamp — hence a second call within the
TTL under the same probe returns the identical list, again without paging. -/
theorem fetch_fast_path (src : Nat → Nat → RpcPage) (opts : FetchOptions)
    (limitCfg : Nat) (c : TxCache) (now now2 fuel fuel2 i : Nat)
    (hforce : opts.forceRescan = false)
    (hd : c.dirty = false)
    (hage : now - c.lastUpdated ≤ cacheTTL)
    (hage2 : now2 - now ≤ cacheTTL)
    (hprobe : src 1 ((c.lastIndex + 1) % 2 ^ 32) = .ok [] i) :
    (fetchTransactionsWithOptions src false opts limitCfg c now fuel).txs
        = truncateLimit (if opts.ignoreLimit then 0 else limitCfg) c.txs ∧
    (fetchTransactionsWithOptions src false opts limitCfg c now fuel).err = none ∧
    (fetchTransactionsWithOptions src false opts limitCfg c now fuel).pageCalls = 0 ∧
    (fetchTransactionsWithOptions src false opts limitCfg c now fuel).cache
        = { c with lastUpdated := now } ∧
    (fetchTransactionsWithOptions src false opts limitCfg
        (fetchTransactionsWithOptions src false opts limitCfg c now fuel).cache
        now2 fuel2).txs
      = (fetchTransactionsWithOptions src false opts limitCfg c now fuel).txs ∧
    (fetchTransactionsWithOptions src false opts limitCfg
        (fetchTransactionsWithOptions src false opts limitCfg c now fuel).cache
        now2 fuel2).pageCalls = 0 := by
  have h1 : fetchTransactionsWithOptions src false opts limitCfg c now fuel
      = ⟨truncateLimit (if opts.ignoreLimit then 0 else limitCfg) c.txs, none,
          { c with lastUpdated := now }, 0⟩ := by
    unfold fetchTransactionsWithOptions
    simp only [Bool.false_eq_true, if_false]
    rw [if_pos ⟨hd, hforce, hage⟩, hprobe]
  have h2 : fetchTransactionsWithOptions src false opts limitCfg
      { c with lastUpdated := now } now2 fuel2
      = ⟨truncateLimit (if opts.ignoreLimit then 0 else limitCfg) c.txs, none,
          { c with lastUpdated := now2 }, 0⟩ := by
    unfold fetchTransactionsWithOptions
    simp only [Bool.false_eq_true, if_false]
    rw [if_pos ⟨hd, hforce, hage2⟩, hprobe]
  rw [h1]
  refine ⟨rfl, rfl, rfl, rfl, ?_, ?_⟩
  · show (fetchTransactionsWithOptions src false opts limitCfg
      { c with lastUpdated := now } now2 fuel2).txs = _
    rw [h2]
  · show (fetchTransactionsWithOptions src false opts limitCfg
      { c with lastUpdated := now } now2 fuel2).pageCalls = 0
    rw [h2]

/-- Witness for C6: against a source with no new transactions, a clean
in-TTL cache is served as-is by two consecutive calls, identically. -/
theorem fetch_fast_path_witness :
    (fetchTransactionsWithOptions (fun _ _ => RpcPage.ok [] 0) false ⟨false, false⟩ 0
        ⟨[⟨"a", 5, 1⟩], 3, 4, 100, false⟩ 200 5).txs
      = truncateLimit 0 [⟨"a", 5, 1⟩] ∧
    (fetchTransactionsWithOptions (fun _ _ => RpcPage.ok [] 0) false ⟨false, false⟩ 0
        (fetchTransactionsWithOptions (fun _ _ => RpcPage.ok [] 0) false ⟨false, false⟩ 0
          ⟨[⟨"a", 5, 1⟩], 3, 4, 100, false⟩ 200 5).cache 300 7).txs
      = (fetchTransactionsWithOptions (fun _ _ => RpcPage.ok [] 0) false ⟨false, false⟩ 0
          ⟨[⟨"a", 5, 1⟩], 3, 4, 100, false⟩ 200 5).txs := by
  have h := fetch_fast_path (fun _ _ => RpcPage.ok [] 0) ⟨false, false⟩ 0
    ⟨[⟨"a", 5, 1⟩], 3, 4, 100, false⟩ 200 300 5 7 0 rfl rfl (by decide) (by decide) rfl
  exact ⟨h.1, h.2.2.2.2.1⟩

end TWallet
